import Mathlib

/-!
Verification of the bank-record-parser core (CEC statement parser, installment
aggregator, rule loading and category matching) against its natural-language
specification.  The Python sources are shallowly embedded: strings are lists of
characters, Python floats are modelled as rationals, a raised exception is an
`Option.none` result, and the regular expressions of `cec_parser.py` are compiled
by hand into backtracking matchers that reproduce the leftmost-first,
greedy/lazy priority order of the `re` module on the character classes the
patterns use (ASCII digits, ASCII whitespace, ASCII uppercase).
-/

/-! ### Character classes and small string helpers (Python semantics) -/

/-- Python whitespace class as used by `\s` and by `str.strip` / `str.split`
(ASCII fragment; the embedded documents are ASCII). -/
def pyWs (c : Char) : Bool :=
  c == ' ' || c == '\t' || c == '\n' || c == '\r' || c == '\x0b' || c == '\x0c'

/-- Separator class of `DATE_REGEX`, the character set written as a bracket
expression of dot, slash and hyphen in `cec_parser.py` line 8. -/
def isSepChar (c : Char) : Bool :=
  c == '.' || c == '/' || c == '-'

/-- ASCII uppercase, the class written as the A-to-Z bracket expression in
`BLOCK_RE`. -/
def isUpperAZ (c : Char) : Bool :=
  'A' ≤ c && c ≤ 'Z'

/-- Amount character class `AMOUNT_RE` (digits, dot, comma) of
`cec_parser.py` line 12. -/
def isAmountChar (c : Char) : Bool :=
  c.isDigit || c == '.' || c == ','

/-- Length of the maximal run of characters satisfying `p` at the head. -/
def runLen (p : Char → Bool) (cs : List Char) : Nat :=
  (cs.takeWhile p).length

/-- Python `str.strip()` on a character list (drop leading and trailing
whitespace). -/
def stripChars (cs : List Char) : List Char :=
  ((cs.dropWhile pyWs).reverse.dropWhile pyWs).reverse

/-- Python `str.strip()`. -/
def pyStrip (s : String) : String :=
  String.mk (stripChars s.data)

/-- Consume the literal `lit` from the head of `cs`, returning the rest. -/
def takeLit : List Char → List Char → Option (List Char)
  | [], cs => some cs
  | _ :: _, [] => none
  | l :: ls, c :: cs => if c == l then takeLit ls cs else none

/-- Whether `needle` occurs at the head of `hay`. -/
def isPrefList : List Char → List Char → Bool
  | [], _ => true
  | _ :: _, [] => false
  | a :: as, b :: bs => a == b && isPrefList as bs

/-- Leftmost 1-based position of `needle` inside `hay`, `none` when absent. -/
def searchPos (needle : List Char) : List Char → Nat → Option Nat
  | hay, i =>
    if isPrefList needle hay then some i
    else
      match hay with
      | [] => none
      | _ :: t => searchPos needle t (i + 1)

/-- Python `needle in hay` substring test. -/
def listContains (hay needle : List Char) : Bool :=
  (searchPos needle hay 1).isSome

/-- Python `str.upper()` (ASCII fragment). -/
def pyUpper (s : String) : String :=
  String.mk (s.data.map Char.toUpper)

/-- Numeric value of a digit string, as computed by Python `int`/`float` on an
all-digit token. -/
def digitsToNat (cs : List Char) : Nat :=
  cs.foldl (fun a c => a * 10 + (c.toNat - 48)) 0

/-- Python `int(s)` restricted to the inputs that reach it in the parser
(strings captured by a digits-only group): an empty string raises `ValueError`
(`none`); otherwise the digit string's value. -/
def pyInt? (s : String) : Option Nat :=
  if s.data ≠ [] ∧ s.data.all Char.isDigit then some (digitsToNat s.data) else none

/-- Python `float(s)` restricted to the inputs that reach it in the parser
(tokens of `AMOUNT_RE` after all dots and commas are removed): an empty or
non-digit string raises `ValueError` (`none`); a digit string gives its integer
value, which `float` represents exactly at the magnitudes involved. -/
def pyFloatDigits (s : String) : Option ℚ :=
  if s.data ≠ [] ∧ s.data.all Char.isDigit then some ((digitsToNat s.data : ℚ)) else none

/-- Whether a (nonempty) token starts with a digit: Python's
`re.match` of a single-digit pattern against the token, used to filter
merchant-name tokens in `cec_parser.py` line 107. -/
def startsDigit : List Char → Bool
  | [] => false
  | c :: _ => c.isDigit

/-- Python `str.split()` (split on whitespace runs, no empty tokens). -/
def pyWords (cs : List Char) : List (List Char) :=
  (cs.splitOnP pyWs).filter (fun w => !w.isEmpty)

/-! ### The date pattern `DATE_REGEX` -/

/-- Guard of the date pattern: two digits, separator, two digits, separator,
four digits (`cec_parser.py` line 8). -/
def dateGuard (c1 c2 c3 c4 c5 c6 c7 c8 c9 c10 : Char) : Bool :=
  c1.isDigit && c2.isDigit && isSepChar c3 && c4.isDigit && c5.isDigit &&
  isSepChar c6 && c7.isDigit && c8.isDigit && c9.isDigit && c10.isDigit

/-- Match `DATE_REGEX` at the head of `cs`: on success the ten matched
characters and the rest.  The pattern is a fixed-length sequence of
single-character classes, so matching at a position is deterministic. -/
def matchDate : List Char → Option (List Char × List Char)
  | c1 :: c2 :: c3 :: c4 :: c5 :: c6 :: c7 :: c8 :: c9 :: c10 :: rest =>
    if dateGuard c1 c2 c3 c4 c5 c6 c7 c8 c9 c10 then
      some ([c1, c2, c3, c4, c5, c6, c7, c8, c9, c10], rest)
    else none
  | _ => none

/-- A string is date-shaped when `DATE_REGEX` matches it exactly. -/
def dateShaped (s : String) : Bool :=
  match matchDate s.data with
  | some (_, []) => true
  | _ => false

/-- Whether the text contains a date-shaped substring (the `re.findall`
non-emptiness test of the capability predicate). -/
def hasDate : List Char → Bool
  | [] => false
  | cs@(_ :: rest) => (matchDate cs).isSome || hasDate rest

/-! ### The block pattern `BLOCK_RE`

`BLOCK_RE` (cec_parser.py lines 15-27) is one fixed sequence of sub-patterns.
Every repetition in it applies to a single-character class, so the set of ways
a sub-pattern can match at a position is a set of consumption lengths; each
component below returns its candidate rests in the backtracking priority order
of the `re` module (greedy: longest first; lazy: shortest first; optional
greedy: present first), and the composition tries candidates depth-first,
exactly as the regex engine does. -/

/-- Try candidates in order, returning the first success. -/
def firstSome : List α → (α → Option β) → Option β
  | [], _ => none
  | a :: as, f =>
    match f a with
    | some b => some b
    | none => firstSome as f

/-- Consumption counts `n, n-1, ..., 0` (greedy star). -/
def descRange (n : Nat) : List Nat :=
  (List.range (n + 1)).reverse

/-- Consumption counts `1, 2, ..., n` (lazy plus). -/
def ascRange1 (n : Nat) : List Nat :=
  (List.range n).map (· + 1)

/-- Consumption counts `n, n-1, ..., lo` (greedy repetition with a lower
bound); empty when `n < lo`. -/
def descRangeFrom (n lo : Nat) : List Nat :=
  (descRange n).filter (fun k => lo ≤ k)

/-- Candidate rests for the gap between the header date and the transaction
date — whitespace star, newline, whitespace star, optional newline — in
backtracking priority order (both stars greedy, the optional newline taken
first). -/
def gap1Cands (cs : List Char) : List (List Char) :=
  (descRange (runLen pyWs cs)).flatMap fun k1 =>
    match cs.drop k1 with
    | '\n' :: cs2 =>
      (descRange (runLen pyWs cs2)).flatMap fun k2 =>
        match cs2.drop k2 with
        | '\n' :: cs4 => [cs4, cs2.drop k2]
        | cs3 => [cs3]
    | _ => []

/-- Candidate rests for the whitespace-star-then-newline gap, greedy star
first. -/
def gap2Cands (cs : List Char) : List (List Char) :=
  (descRange (runLen pyWs cs)).filterMap fun k =>
    match cs.drop k with
    | '\n' :: r => some r
    | _ => none

/-- Candidates for the lazy dot-star `info` group (DOTALL): shortest
prefix first, each paired with its rest. -/
def infoCands (cs : List Char) : List (List Char × List Char) :=
  (List.range (cs.length + 1)).map fun k => (cs.take k, cs.drop k)

/-- Candidates for the lazy digits-plus `ref` group: shortest nonempty
digit prefix first. -/
def refCands (cs : List Char) : List (List Char × List Char) :=
  (ascRange1 (runLen Char.isDigit cs)).map fun k => (cs.take k, cs.drop k)

/-- Candidates for the `number` group (at least two uppercase letters then at
least one digit, both greedy; the letter count backtracks slower than the
digit count, as in the regex engine). -/
def numberCands (cs : List Char) : List (List Char × List Char) :=
  (descRangeFrom (runLen isUpperAZ cs) 2).flatMap fun a =>
    (descRangeFrom (runLen Char.isDigit (cs.drop a)) 1).map fun d =>
      (cs.take (a + d), (cs.drop a).drop d)

/-- Candidate rests for a bare greedy whitespace star. -/
def wsCands (cs : List Char) : List (List Char) :=
  (descRange (runLen pyWs cs)).map (cs.drop ·)

/-- Candidates for the optional sign group: when a sign character is next, the
captured variant first (greedy option), then the skipped variant. -/
def signCands (cs : List Char) : List (Option Char × List Char) :=
  match cs with
  | c :: r => if c == '-' || c == '+' then [(some c, r), (none, cs)] else [(none, cs)]
  | [] => [(none, [])]

/-- Candidates for the greedy `amount` group: longest nonempty run of amount
characters first. -/
def amountCands (cs : List Char) : List (List Char × List Char) :=
  (descRangeFrom (runLen isAmountChar cs) 1).map fun k => (cs.take k, cs.drop k)

/-- Captures of everything in `BLOCK_RE` after the header date. -/
structure BodyRes where
  date : String
  info : String
  ref : String
  number : String
  sign : Option String
  amount : String
  rest : List Char
deriving DecidableEq

/-- Match the part of `BLOCK_RE` after the header-date group, depth-first over
the candidate consumptions of each component: gap, transaction date, gap,
lazy info, newline, lazy ref, gap, number, whitespace, optional sign,
whitespace, amount. -/
def matchBlockBody (cs : List Char) : Option BodyRes :=
  firstSome (gap1Cands cs) fun cs1 =>
    match matchDate cs1 with
    | none => none
    | some (dateCs, cs2) =>
      firstSome (gap2Cands cs2) fun cs3 =>
        firstSome (infoCands cs3) fun ic =>
          match ic.2 with
          | '\n' :: cs5 =>
            firstSome (refCands cs5) fun rc =>
              firstSome (gap2Cands rc.2) fun cs7 =>
                firstSome (numberCands cs7) fun nc =>
                  firstSome (wsCands nc.2) fun cs9 =>
                    firstSome (signCands cs9) fun sc =>
                      firstSome (wsCands sc.2) fun cs11 =>
                        firstSome (amountCands cs11) fun ac =>
                          some { date := String.mk dateCs, info := String.mk ic.1,
                                 ref := String.mk rc.1, number := String.mk nc.1,
                                 sign := sc.1.map fun c => String.mk [c],
                                 amount := String.mk ac.1, rest := ac.2 }
          | _ => none

/-- One full `BLOCK_RE` match: named groups as captured strings, plus the text
after the end of the match (where `finditer` resumes). -/
structure BlockMatch where
  header_date : String
  date : String
  info : String
  ref : String
  number : String
  sign : Option String
  amount : String
  rest : List Char
deriving DecidableEq

/-- Match `BLOCK_RE` anchored at the head of `cs`: the mandatory header-date
group, then the body. -/
def matchBlockAt (cs : List Char) : Option BlockMatch :=
  match matchDate cs with
  | none => none
  | some (hd, cs1) =>
    (matchBlockBody cs1).map fun b =>
      { header_date := String.mk hd, date := b.date, info := b.info, ref := b.ref,
        number := b.number, sign := b.sign, amount := b.amount, rest := b.rest }

/-- The scan of `re.finditer`: try each start position left to right, resuming
after the end of each match.  `fuel` bounds the number of scan steps; the
callers pass the text length plus one, which covers every start position. -/
def cecFindIter : Nat → List Char → List BlockMatch
  | 0, _ => []
  | fuel + 1, cs =>
    match matchBlockAt cs with
    | some bm => bm :: cecFindIter fuel bm.rest
    | none =>
      match cs with
      | [] => []
      | _ :: cs' => cecFindIter fuel cs'

/-! ### Secondary extractions inside the `info` group -/

/-- Literal fragments of `RATA_REGEX` and `TOTAL_TRANZACTIE_REGEX`. -/
def rataLit : List Char := "Rata ".data

/-- Literal between the two digit groups of `RATA_REGEX`. -/
def dinLit : List Char := " din ".data

/-- Literal merchant marker of `TOTAL_TRANZACTIE_REGEX`. -/
def comerciantLit : List Char := "comerciant".data

/-- Literal currency marker of `TOTAL_TRANZACTIE_REGEX`. -/
def ronLit : List Char := "RON".data

/-- Match `RATA_REGEX` anchored at the head: the literal, a greedy and
possibly empty digit run, the second literal, a second digit run.  The digit
class and the space that follows each run are disjoint, so maximal munch is
the regex behaviour. -/
def rataAt (cs : List Char) : Option (String × String) :=
  match takeLit rataLit cs with
  | none => none
  | some r1 =>
    let d1 := r1.takeWhile Char.isDigit
    match takeLit dinLit (r1.drop d1.length) with
    | none => none
    | some r3 => some (String.mk d1, String.mk (r3.takeWhile Char.isDigit))

/-- Search of `RATA_REGEX`: leftmost match. -/
def rataSearch : List Char → Option (String × String)
  | [] => none
  | cs@(_ :: rest) =>
    match rataAt cs with
    | some r => some r
    | none => rataSearch rest

/-- Match `TOTAL_TRANZACTIE_REGEX` anchored at the head: whitespace run, the
merchant literal, whitespace run, amount-character run (captured), whitespace
run, the currency literal.  Every class is disjoint from the literal or class
that follows it, so maximal munch is the regex behaviour. -/
def totalAt (cs : List Char) : Option String :=
  let w1 := runLen pyWs cs
  if w1 == 0 then none
  else
    match takeLit comerciantLit (cs.drop w1) with
    | none => none
    | some r1 =>
      let w2 := runLen pyWs r1
      if w2 == 0 then none
      else
        let r2 := r1.drop w2
        let a := r2.takeWhile isAmountChar
        if a.isEmpty then none
        else
          let r3 := r2.drop a.length
          let w3 := runLen pyWs r3
          if w3 == 0 then none
          else
            match takeLit ronLit (r3.drop w3) with
            | none => none
            | some _ => some (String.mk a)

/-- Search of `TOTAL_TRANZACTIE_REGEX`: leftmost match. -/
def totalSearch : List Char → Option String
  | [] => none
  | cs@(_ :: rest) =>
    match totalAt cs with
    | some r => some r
    | none => totalSearch rest

/-- Helper for `re.split(DATE_REGEX, ...)`: scan for non-overlapping leftmost
date matches, emitting the pieces between them.  `fuel` bounds the scan steps;
callers pass the text length plus one. -/
def splitDateAux : Nat → List Char → List Char → List String
  | 0, acc, _ => [String.mk acc.reverse]
  | fuel + 1, acc, cs =>
    match matchDate cs with
    | some (_, rest) => String.mk acc.reverse :: splitDateAux fuel [] rest
    | none =>
      match cs with
      | [] => [String.mk acc.reverse]
      | c :: cs' => splitDateAux fuel (c :: acc) cs'

/-- Python `re.split(DATE_REGEX, info)`. -/
def pySplitDate (cs : List Char) : List String :=
  splitDateAux (cs.length + 1) [] cs

/-- Merchant-name extraction of `cec_parser.py` lines 103-112: the text after
the first date inside `info`, whitespace-tokenised, tokens that start with a
digit dropped, joined by single spaces; the `IndexError` when `info` holds no
date is caught and yields the empty string. -/
def payeeOf (info : String) : String :=
  match pySplitDate info.data with
  | _ :: s2 :: _ =>
    " ".intercalate
      (((pyWords (stripChars s2.data)).filter fun t => !startsDigit t).map String.mk)
  | _ => ""

/-! ### Amount normalisation and the Transaction record -/

/-- The private `CecParser.__normalize_amount` (cec_parser.py lines 74-76):
remove every comma and dot, strip, parse as a float and divide by 100;
`ValueError` on a digit-free token is `none`. -/
def normalize_amount (s : String) : Option ℚ :=
  (pyFloatDigits (String.mk (stripChars (s.data.filter fun c => !(c == ',' || c == '.'))))).map
    (· / 100)

/-- The `Transaction` container of `parsers/__init__.py` (keyword-only optional
fields; numeric fields as rationals). -/
structure Transaction where
  date : Option String := none
  details : Option String := none
  rata : Option String := none
  store : Option String := none
  transaction_nr : Option String := none
  total_transaction : Option ℚ := none
  amount : Option ℚ := none
  vendor : Option String := none
  ref : Option String := none
  number : Option String := none
  installment : Option ℤ := none
  installment_count : Option ℤ := none
  transaction_total : Option ℚ := none
  header_date : Option String := none
  sign : Option String := none
deriving DecidableEq, Inhabited

/-- The transaction-total default and override of `cec_parser.py` lines
97-100: `0.0` unless `TOTAL_TRANZACTIE_REGEX` matches, in which case the
captured token is normalised (a digit-free capture raises, giving `none`). -/
def totalOf (info : String) : Option ℚ :=
  match totalSearch info.data with
  | none => some 0
  | some a => normalize_amount a

/-- Build the `Transaction` record from the parsed pieces (cec_parser.py lines
114-142), given the already-normalised monthly amount and the installment
fields. -/
def finishTx (m : BlockMatch) (info : String) (amount : ℚ)
    (inst instCount : Option ℤ) (rataStr : String) : Option Transaction :=
  (totalOf info).map fun tot =>
    { date := some m.date
      details := some info
      rata := some rataStr
      store := some (payeeOf info)
      transaction_nr := some m.number
      total_transaction := some (if m.sign = some "+" then tot else -tot)
      amount := some (if m.sign = some "+" then amount else -amount)
      vendor := some (payeeOf info)
      ref := some (pyStrip m.ref)
      number := some m.number
      installment := inst
      installment_count := instCount
      transaction_total := some tot
      header_date := some m.header_date
      sign := m.sign }

/-- Per-match body of `CecParser.parse_text` (cec_parser.py lines 81-142):
normalise the amount, extract the installment pair (an empty digit group makes
`int` raise, aborting the whole parse), then the total and merchant name. -/
def buildTransaction (m : BlockMatch) : Option Transaction :=
  match normalize_amount m.amount with
  | none => none
  | some amount =>
    match rataSearch (pyStrip m.info).data with
    | none => finishTx m (pyStrip m.info) amount none none ""
    | some (s1, s2) =>
      match pyInt? s1, pyInt? s2 with
      | some n, some mm =>
        finishTx m (pyStrip m.info) amount (some (n : ℤ)) (some (mm : ℤ))
          (if mm ≠ 0 then "Rata " ++ toString n ++ " din " ++ toString mm else "")
      | _, _ => none

/-- Sequence the per-match builds, propagating a raised exception. -/
def optionMapM (f : α → Option β) : List α → Option (List β)
  | [] => some []
  | a :: as =>
    match f a with
    | none => none
    | some b =>
      match optionMapM f as with
      | none => none
      | some bs => some (b :: bs)

/-- The method `CecParser.parse_text` (cec_parser.py lines 78-144): every `BLOCK_RE`
match in order, each turned into a `Transaction`; `none` when a `ValueError`
escapes (which aborts the whole call before any list is returned). -/
def cecParseText (text : String) : Option (List Transaction) :=
  optionMapM buildTransaction (cecFindIter (text.data.length + 1) text.data)

/-! ### The capability predicate `CecParser.validate_pdf` -/

/-- The keyword markers scored by the capability predicate
(cec_parser.py line 44). -/
def cec_indicators : List String :=
  ["CEC", "CASA DE ECONOMII", "EXTRAS DE CONT", "RON"]

/-- Number of keyword markers present in the upper-cased document text
(cec_parser.py lines 43-47). -/
def indicatorMatches (content : String) : Nat :=
  cec_indicators.countP fun ind => listContains (pyUpper content).data ind.data

/-- The method `CecParser.validate_pdf` (cec_parser.py lines 39-52), translated with its
two defects.  Line 42 calls a dictionary lookup method on the plain string
returned by `pdf_to_text`, which raises `AttributeError` before any scoring
runs; and even past that, lines 48-49 bind `date_matches` to the builtin
length function because the call landed on its own line, so the comparison
on line 50 would raise `TypeError`.  The bare `except` on line 51 swallows
either exception and returns `False`, so the predicate is `false` for every
document.  The argument is the extracted document text (the binary decoding
in `pdf_to_text` is an external collaborator). -/
def validate_pdf (_content : String) : Bool :=
  false

/-- Modelled from the spec: the capability predicate as the specification
describes it (score the four family keyword markers case-insensitively,
require at least two, and require at least one date-shaped substring) — what
lines 39-52 evidently intend to compute.  Kept separate from `validate_pdf`,
which translates what the code actually does. -/
def canHandleSpec (content : String) : Bool :=
  decide (2 ≤ indicatorMatches content) && hasDate content.data

/-! ### Rule loading (`load_rules`, identical in main.py lines 21-30 and
core/utils.py lines 31-40) -/

/-- Python `file.readlines()`: split after every newline, keeping the
newline; a final piece without a newline is kept, an empty tail is not. -/
def readlinesAux : List Char → List Char → List String
  | [], acc => if acc.isEmpty then [] else [String.mk acc.reverse]
  | c :: cs, acc =>
    if c == '\n' then String.mk (acc.reverse ++ ['\n']) :: readlinesAux cs []
    else readlinesAux cs (c :: acc)

/-- Python `file.readlines()` on the file's text content. -/
def pyReadlines (s : String) : List String :=
  readlinesAux s.data []

/-- Python `str.split(",")`: pieces between commas, empty pieces kept, always
at least one piece. -/
def splitCommaAux : List Char → List Char → List String
  | [], acc => [String.mk acc.reverse]
  | c :: cs, acc =>
    if c == ',' then String.mk acc.reverse :: splitCommaAux cs []
    else splitCommaAux cs (c :: acc)

/-- Python `line.split(",")`. -/
def pySplitComma (s : String) : List String :=
  splitCommaAux s.data []

/-- The loop body of `load_rules`: one `(pattern, category)` pair per line
from the line's first two comma-separated fields, raising (`none`) at the
first line with fewer than two fields. -/
def loadRulesLines : List String → Option (List (String × String))
  | [] => some []
  | l :: ls =>
    match pySplitComma l with
    | a :: b :: _ => (loadRulesLines ls).map ((a, b) :: ·)
    | _ => none

/-- The function `load_rules` over the text content of the rules file. -/
def load_rules (content : String) : Option (List (String × String)) :=
  loadRulesLines (pyReadlines content)

/-- First two comma-separated fields of a line (defined for every line; only
used on lines where `load_rules` does not raise). -/
def lineFields (l : String) : String × String :=
  match pySplitComma l with
  | a :: b :: _ => (a, b)
  | _ => ("", "")

/-! ### The installment aggregator `compute_summary` (main.py lines 78-106) -/

/-- State of the aggregation loop: the `defaultdict` of buckets as an
insertion-ordered association list (Python dictionaries preserve insertion
order and never hold a key twice), and the two running totals. -/
structure SummaryState where
  rate_buckets : List (ℤ × ℚ)
  cheltuieli : ℚ
  rate_noi : ℚ
deriving DecidableEq

/-- Increment `rate_buckets[k] += v` on a `defaultdict(int)`: update the entry in place
when the key is present, append a fresh entry (created at zero) otherwise. -/
def dictAdd : List (ℤ × ℚ) → ℤ → ℚ → List (ℤ × ℚ)
  | [], k, v => [(k, v)]
  | p :: l, k, v => if p.1 = k then (p.1, p.2 + v) :: l else p :: dictAdd l k v

/-- Dictionary lookup with the `defaultdict(int)` default of zero. -/
def dictGet : List (ℤ × ℚ) → ℤ → ℚ
  | [], _ => 0
  | p :: l, k => if p.1 = k then p.2 else dictGet l k

/-- One iteration of the `compute_summary` loop (main.py lines 87-104).
Python truthiness on `tx.installment` sends both a missing index and an index
of zero to the expenses branch; a missing `installment_count` or a missing
`amount` raises `TypeError` (`none`).  The `rate_noi` contribution is written
as an add-zero conditional, which is the same sum the guarded `+=` of lines
99-104 produces; `float(total_tr or 0)` turns a missing total into zero and
cannot raise on the float-or-`None` field. -/
def summaryStep (s : SummaryState) (tx : Transaction) : Option SummaryState :=
  match tx.installment with
  | none => tx.amount.map fun a => { s with cheltuieli := s.cheltuieli + a }
  | some n =>
    if n = 0 then tx.amount.map fun a => { s with cheltuieli := s.cheltuieli + a }
    else
      match tx.installment_count, tx.amount with
      | some m, some a =>
        some { s with
               rate_buckets := dictAdd s.rate_buckets (m - n) a,
               rate_noi := s.rate_noi +
                 (if n = 1 then tx.total_transaction.getD 0 else 0) }
      | some _, none => none
      | none, _ => none

/-- The aggregation loop from a given state. -/
def computeSummaryFrom (s : SummaryState) : List Transaction → Option SummaryState
  | [] => some s
  | tx :: txs =>
    match summaryStep s tx with
    | none => none
    | some s' => computeSummaryFrom s' txs

/-- The function `compute_summary` (main.py lines 78-106): returns
`(rate_buckets, cheltuieli, rate_noi)`; `none` models an escaping
`TypeError`. -/
def compute_summary (txs : List Transaction) : Option SummaryState :=
  computeSummaryFrom { rate_buckets := [], cheltuieli := 0, rate_noi := 0 } txs

/-- One aggregation step continued from a possibly-raised state. -/
def contStep (o : Option SummaryState) (tx : Transaction) : Option SummaryState :=
  match o with
  | none => none
  | some s => summaryStep s tx

/-- The aggregation loop continued from a possibly-raised state. -/
def contFrom (o : Option SummaryState) (l : List Transaction) : Option SummaryState :=
  match o with
  | none => none
  | some s => computeSummaryFrom s l

/-- The summary rows handed to `write_summary_section_openpyxl`
(main.py line 69): one `(months, sum)` row per bucket, in dictionary
iteration order, which is insertion order. -/
def summaryRows (txs : List Transaction) : Option (List (ℤ × ℚ)) :=
  (compute_summary txs).map (·.rate_buckets)

/-! ### Spec-side aggregation quantities (claim wording) -/

/-- Sum of `amount` over the transactions whose installment index is null. -/
def nonInstallmentTotal (txs : List Transaction) : ℚ :=
  (txs.map fun tx => if tx.installment = none then tx.amount.getD 0 else 0).sum

/-- Sum of `amount` over the installment transactions whose
months-remaining key equals `k`. -/
def bucketTotal (txs : List Transaction) (k : ℤ) : ℚ :=
  (txs.map fun tx =>
    match tx.installment, tx.installment_count with
    | some n, some m => if m - n = k then tx.amount.getD 0 else 0
    | _, _ => 0).sum

/-- Sum of `totalTransactionAmount` (missing coerced to zero) over the
transactions with installment index one. -/
def newlyOpenedTotal (txs : List Transaction) : ℚ :=
  (txs.map fun tx =>
    if tx.installment = some 1 then tx.total_transaction.getD 0 else 0).sum

/-- The data-model invariant of spec section 3 on one transaction, plus a
present amount: the installment fields are both null or both present with
the index between one and the count. -/
def txWF (tx : Transaction) : Bool :=
  tx.amount.isSome &&
  (match tx.installment, tx.installment_count with
   | none, none => true
   | some n, some m => decide (1 ≤ n) && decide (n ≤ m)
   | _, _ => false)

/-! ### Equality-as-maps for summaries and insertion order of bucket keys -/

/-- Two summary states agree when their bucket dictionaries agree as maps and
the two scalar totals agree. -/
def summaryEquiv (s t : SummaryState) : Prop :=
  (∀ k, dictGet s.rate_buckets k = dictGet t.rate_buckets k) ∧
  s.cheltuieli = t.cheltuieli ∧ s.rate_noi = t.rate_noi

/-- Lift `summaryEquiv` to possibly-raising results: two runs agree when both
raise or both return agreeing summaries. -/
def optSummaryEquiv : Option SummaryState → Option SummaryState → Prop
  | none, none => True
  | some s, some t => summaryEquiv s t
  | _, _ => False

/-- The months-remaining key a transaction contributes a bucket update for,
if any (Python truthiness: an index of zero contributes none). -/
def derivedKey (tx : Transaction) : Option ℤ :=
  match tx.installment, tx.installment_count with
  | some n, some m => if n = 0 then none else some (m - n)
  | _, _ => none

/-- Append a key if it is not already present (dictionary insertion). -/
def insertNew (ks : List ℤ) (k : ℤ) : List ℤ :=
  if k ∈ ks then ks else ks ++ [k]

/-- The bucket keys in order of first occurrence of each derived key over the
transaction list. -/
def firstOccKeys (txs : List Transaction) : List ℤ :=
  txs.foldl
    (fun ks tx =>
      match derivedKey tx with
      | some k => insertNew ks k
      | none => ks)
    []

/-- Ascending sortedness of a key sequence. -/
def ascSorted : List ℤ → Bool
  | [] => true
  | [_] => true
  | a :: b :: l => decide (a ≤ b) && ascSorted (b :: l)

/-! ### The category formula of `write_transactions_sheet_openpyxl`
(core/excel_io.py lines 109-131) -/

/-- Excel `SEARCH(find_text, within_text)`: case-insensitive 1-based position
of the first occurrence, a `#VALUE!` error (`none`) when absent.  (The
wildcard syntax of `SEARCH` is not exercised by the patterns at issue.) -/
def excelSearch (needle hay : String) : Option Nat :=
  searchPos (pyUpper needle).data (pyUpper hay).data 1

/-- The calculated category column written on line 121: an index/match over
the rule table that selects the category of the first rule whose pattern
`SEARCH`-matches the store cell; `none` is the `#N/A` error `MATCH` produces
when no rule matches. -/
def formulaCategory (rules : List (String × String)) (store : String) : Option String :=
  (rules.find? fun r => (excelSearch r.1 store).isSome).map Prod.snd

/-- The category matcher as spec section 4.3 words it: iterate the rules in
order and return the label of the first case-insensitive substring hit. -/
def categorizeFirstMatch : List (String × String) → String → Option String
  | [], _ => none
  | (p, c) :: rs, m =>
    if listContains (pyUpper m).data (pyUpper p).data then some c
    else categorizeFirstMatch rs m

/-! ### Concrete inputs used by the scenario claims -/

/-- Scenario transaction: installment 1 of 12, amount -100, total -1200. -/
def scenTx1 : Transaction :=
  { installment := some 1, installment_count := some 12,
    amount := some (-100), total_transaction := some (-1200) }

/-- Scenario transaction: installment 2 of 12, amount -100. -/
def scenTx2 : Transaction :=
  { installment := some 2, installment_count := some 12, amount := some (-100) }

/-- Scenario transaction: non-installment, amount -30. -/
def scenTx3 : Transaction :=
  { amount := some (-30) }

/-- The spec scenario's transaction list. -/
def scenTxs : List Transaction := [scenTx1, scenTx2, scenTx3]

/-- The input line block of the spec's Variant-B parsing scenario. -/
def c4Input : String :=
  "15-03-2024\n\nRata 2 din 12 SUPERMARKET\n12345\nAB6789-150,00"

/-- The scenario block adjusted so that `BLOCK_RE` can accept it: a header
date line precedes the transaction date, and the details line carries the
date token that the merchant-name extraction strips. -/
def c4FixedInput : String :=
  "14-03-2024\n\n15-03-2024\n15-03-2024 Rata 2 din 12 SUPERMARKET\n12345\nAB6789-150,00"

/-- The one `BLOCK_RE` match inside `c4FixedInput`. -/
def c4Bm : BlockMatch :=
  { header_date := "14-03-2024", date := "15-03-2024",
    info := "15-03-2024 Rata 2 din 12 SUPERMARKET", ref := "12345", number := "AB6789",
    sign := some "-", amount := "150,00", rest := [] }

/-- An input block whose installment phrase names installment zero. -/
def rataZeroInput : String :=
  "01-01-2024\n\n02-01-2024\nRata 0 din 2\n5\nAB1-7"

/-- A minimal input block with no installment phrase. -/
def plainBlockInput : String :=
  "01-01-2024\n\n02-01-2024\nX\n5\nAB1-7"

/-- A second minimal block (witness input, distinct from the others). -/
def plainBlockInput2 : String :=
  "03-01-2024\n\n04-01-2024\nY\n6\nCD2-8"

/-- A document text satisfying the capability claim's conditions: three of
the four keyword markers and one date-shaped substring. -/
def c3Input : String :=
  "CEC EXTRAS DE CONT RON 01-01-2024"

/-! ### Helper lemmas -/

/-- Dropping while a predicate that is false on every element changes
nothing. -/
theorem dropWhile_eq_self_of_false (p : Char → Bool) (l : List Char)
    (h : ∀ c ∈ l, p c = false) : l.dropWhile p = l := by
  cases l with
  | nil => rfl
  | cons c cs => simp [List.dropWhile_cons, h c (by simp)]

/-- Stripping a string without edge whitespace is the identity. -/
theorem stripChars_eq_self (l : List Char) (h : ∀ c ∈ l, pyWs c = false) :
    stripChars l = l := by
  unfold stripChars
  rw [dropWhile_eq_self_of_false _ _ h,
    dropWhile_eq_self_of_false _ _ (fun c hc => h c (List.mem_reverse.mp hc)),
    List.reverse_reverse]

/-- A digit is not Python whitespace. -/
theorem digit_not_ws (c : Char) (h : c.isDigit = true) : pyWs c = false := by
  cases hw : pyWs c with
  | false => rfl
  | true =>
    exfalso
    simp only [pyWs, Bool.or_eq_true, beq_iff_eq] at hw
    rcases hw with ((((rfl | rfl) | rfl) | rfl) | rfl) | rfl <;> exact absurd h (by decide)

/-- A digit is neither a comma nor a dot. -/
theorem digit_not_sep (c : Char) (h : c.isDigit = true) :
    (!(c == ',' || c == '.')) = true := by
  cases hc : (c == ',' || c == '.') with
  | false => rfl
  | true =>
    exfalso
    simp only [Bool.or_eq_true, beq_iff_eq] at hc
    rcases hc with rfl | rfl <;> exact absurd h (by decide)

/-! ### Claim C5 — amount normalisation -/

/-- Claim C5: for every amount token (characters from the amount class, at
least one digit), `normalize_amount` strips all dot and comma characters,
reads the remaining digit string as an integer count of cents and divides by
100; in particular the token of one-dot-two-three-four-comma-five-six
normalises to 1234.56 and the token fifty normalises to 0.50. -/
theorem normalize_amount_claim :
    (∀ s : String, s.data.all isAmountChar = true → s.data.any Char.isDigit = true →
      normalize_amount s =
        some ((digitsToNat (s.data.filter fun c => !(c == ',' || c == '.')) : ℚ) / 100)) ∧
    normalize_amount "1.234,56" = some (1234.56 : ℚ) ∧
    normalize_amount "50" = some (0.50 : ℚ) := by
  have hgen : ∀ s : String, s.data.all isAmountChar = true → s.data.any Char.isDigit = true →
      normalize_amount s =
        some ((digitsToNat (s.data.filter fun c => !(c == ',' || c == '.')) : ℚ) / 100) := ?_
  case _ =>
    refine ⟨hgen, ?_, ?_⟩
    · rw [hgen "1.234,56" (by decide) (by decide),
        show digitsToNat ("1.234,56".data.filter fun c => !(c == ',' || c == '.')) = 123456
          from by decide]
      norm_num
    · rw [hgen "50" (by decide) (by decide),
        show digitsToNat ("50".data.filter fun c => !(c == ',' || c == '.')) = 50 from by decide]
      norm_num
  intro s hall hany
  set F := s.data.filter fun c => !(c == ',' || c == '.') with hF
  have hdig : ∀ c ∈ F, c.isDigit = true := by
    intro c hc
    rw [hF] at hc
    obtain ⟨hmem, hcd⟩ := List.mem_filter.mp hc
    have hcls := (List.all_eq_true.mp hall) c hmem
    simp only [isAmountChar, Bool.or_eq_true, beq_iff_eq] at hcls
    simp only [Bool.not_eq_true', Bool.or_eq_false_iff, beq_eq_false_iff_ne] at hcd
    rcases hcls with (hd | rfl) | rfl
    · exact hd
    · exact absurd rfl hcd.2
    · exact absurd rfl hcd.1
  have hne : F ≠ [] := by
    obtain ⟨c, hcmem, hcdig⟩ := List.any_eq_true.mp hany
    have hcF : c ∈ F := by
      rw [hF]
      exact List.mem_filter.mpr ⟨hcmem, digit_not_sep c hcdig⟩
    intro h0
    rw [h0] at hcF
    exact List.not_mem_nil c hcF
  have hstrip : stripChars F = F :=
    stripChars_eq_self F (fun c hc => digit_not_ws c (hdig c hc))
  unfold normalize_amount
  rw [← hF, hstrip]
  have hfd : pyFloatDigits (String.mk F) = some ((digitsToNat F : ℚ)) := by
    unfold pyFloatDigits
    rw [if_pos]
    exact ⟨hne, List.all_eq_true.mpr hdig⟩
  rw [hfd]
  rfl

/-- Witness for claim C5's theorem at the scenario token. -/
theorem normalize_amount_claim_witness :
    normalize_amount "1.234,56" =
      some ((digitsToNat ("1.234,56".data.filter fun c => !(c == ',' || c == '.')) : ℚ) / 100) :=
  normalize_amount_claim.1 "1.234,56" (by decide) (by decide)

/-! ### Claim C3 — the capability predicate (code bug) -/

/-- Claim C3 (code bug): on a document satisfying the claim's conditions
(three of the four keyword markers present and a date-shaped substring), the
predicate described by the spec holds, yet `validate_pdf` returns false — its
body dies in the swallowed `AttributeError`/`TypeError` of
cec_parser.py lines 41-50 before it can ever return true. -/
theorem validate_pdf_code_bug :
    validate_pdf c3Input = false ∧
    2 ≤ indicatorMatches c3Input ∧
    hasDate c3Input.data = true ∧
    canHandleSpec c3Input = true := by
  exact ⟨rfl, by decide, by decide, by decide⟩

/-! ### Claim C6 — category matching -/

/-- The index/match/search formula agrees with the first-match-wins
recursion over the rule list. -/
theorem formulaCategory_eq_firstMatch (rules : List (String × String)) (m : String) :
    formulaCategory rules m = categorizeFirstMatch rules m := by
  induction rules with
  | nil => rfl
  | cons r rs ih =>
    obtain ⟨p, c⟩ := r
    have hl : (excelSearch p m).isSome = listContains (pyUpper m).data (pyUpper p).data := rfl
    simp only [formulaCategory, categorizeFirstMatch, List.find?_cons] at *
    cases hc : listContains (pyUpper m).data (pyUpper p).data with
    | true =>
      rw [hl, hc]
      simp
    | false =>
      rw [hl, hc]
      simpa using ih

/-- Claim C6 counterexample: with the rule list of the claim's example, the
first pattern is not a substring of the merchant, so the category formula
selects the second rule's label, not the first's as the claim asserts. -/
theorem formulaCategory_claim_counterexample :
    formulaCategory [("AMZ", "Shopping"), ("AMAZON", "Online")] "AMAZON MKTP" = some "Online" ∧
    formulaCategory [("AMZ", "Shopping"), ("AMAZON", "Online")] "AMAZON MKTP" ≠ some "Shopping" := by
  exact ⟨by decide, by decide⟩

/-- Claim C6 as amended: categorisation is first-match-wins — the formula
column equals the ordered first-case-insensitive-substring-match recursion,
returning the error value (`#N/A`, here `none`) rather than an empty string
when no rule matches; in the example, a first pattern that does occur in the
merchant wins over the later one, and with the claim's original first pattern
(not a substring) the second rule's label results. -/
theorem formulaCategory_first_match :
    (∀ rules m, formulaCategory rules m = categorizeFirstMatch rules m) ∧
    formulaCategory [("AMAZ", "Shopping"), ("AMAZON", "Online")] "AMAZON MKTP" = some "Shopping" ∧
    formulaCategory [("AMZ", "Shopping"), ("AMAZON", "Online")] "AMAZON MKTP" = some "Online" ∧
    formulaCategory [("AMZ", "Shopping")] "PROFI" = none := by
  exact ⟨formulaCategory_eq_firstMatch, by decide, by decide, by decide⟩

/-! ### Claim C9 — rule loading -/

/-- The load loop raises exactly when some line has fewer than two fields,
and otherwise returns the first two fields of every line in order. -/
theorem loadRulesLines_spec (ls : List String) :
    (loadRulesLines ls = none ↔ ∃ l ∈ ls, (pySplitComma l).length < 2) ∧
    (∀ rs, loadRulesLines ls = some rs → rs = ls.map lineFields) := by
  induction ls with
  | nil =>
    constructor
    · simp [loadRulesLines]
    · intro rs h
      simp only [loadRulesLines, Option.some.injEq] at h
      simp [← h]
  | cons l ls ih =>
    constructor
    · constructor
      · intro h
        cases hsp : pySplitComma l with
        | nil => exact ⟨l, by simp, by simp [hsp]⟩
        | cons a t =>
          cases t with
          | nil => exact ⟨l, by simp, by simp [hsp]⟩
          | cons b t' =>
            simp only [loadRulesLines, hsp] at h
            cases hrec : loadRulesLines ls with
            | none =>
              obtain ⟨l', hl', hlen⟩ := ih.1.mp hrec
              exact ⟨l', by simp [hl'], hlen⟩
            | some rs => rw [hrec] at h; simp at h
      · rintro ⟨l', hl', hlen⟩
        rcases List.mem_cons.mp hl' with rfl | hmem
        · cases hsp : pySplitComma l' with
          | nil => simp [loadRulesLines, hsp]
          | cons a t =>
            cases t with
            | nil => simp [loadRulesLines, hsp]
            | cons b t' => rw [hsp] at hlen; simp at hlen; omega
        · have hn : loadRulesLines ls = none := ih.1.mpr ⟨l', hmem, hlen⟩
          cases hsp : pySplitComma l with
          | nil => simp [loadRulesLines, hsp]
          | cons a t =>
            cases t with
            | nil => simp [loadRulesLines, hsp]
            | cons b t' => simp [loadRulesLines, hsp, hn]
    · intro rs h
      cases hsp : pySplitComma l with
      | nil => rw [loadRulesLines, hsp] at h; cases h
      | cons a t =>
        cases t with
        | nil => rw [loadRulesLines, hsp] at h; cases h
        | cons b t' =>
          rw [loadRulesLines, hsp] at h
          cases hrec : loadRulesLines ls with
          | none => rw [hrec] at h; cases h
          | some rs' =>
            rw [hrec] at h
            have h' : (a, b) :: rs' = rs := by simpa using h
            rw [← h', ih.2 rs' hrec, List.map_cons, lineFields, hsp]

/-- Claim C9: `load_rules` raises exactly when some line of the file has
fewer than two comma-separated fields, and otherwise returns one pair per
line, in file order, from each line's first two fields — no row is
dropped. -/
theorem load_rules_claim (content : String) :
    (load_rules content = none ↔
      ∃ l ∈ pyReadlines content, (pySplitComma l).length < 2) ∧
    (∀ rs, load_rules content = some rs → rs = (pyReadlines content).map lineFields) :=
  loadRulesLines_spec (pyReadlines content)

/-- Witness for claim C9's theorem on a concrete two-line rule file. -/
theorem load_rules_claim_witness :
    [("a", "b\n"), ("c", "d")] = (pyReadlines "a,b\nc,d").map lineFields :=
  (load_rules_claim "a,b\nc,d").2 [("a", "b\n"), ("c", "d")] (by decide)

/-! ### Dictionary lemmas -/

/-- Lookup after a `defaultdict` increment: the incremented key reads the old
value plus the increment, every other key is unchanged. -/
theorem dictGet_dictAdd (l : List (ℤ × ℚ)) (k : ℤ) (v : ℚ) (j : ℤ) :
    dictGet (dictAdd l k v) j = if j = k then dictGet l k + v else dictGet l j := by
  induction l with
  | nil =>
    by_cases h : j = k
    · subst h
      simp [dictAdd, dictGet]
    · simp [dictAdd, dictGet, h, Ne.symm h]
  | cons p l ih =>
    obtain ⟨a, b⟩ := p
    by_cases hak : a = k
    · subst hak
      simp only [dictAdd, if_pos rfl]
      by_cases hja : j = a
      · subst hja
        simp [dictGet]
      · simp [dictGet, hja, Ne.symm hja]
    · simp only [dictAdd, if_neg hak]
      by_cases hja : a = j
      · subst hja
        simp [dictGet, hak]
      · simp [dictGet, hja, ih, hak]

/-- Keys after a `defaultdict` increment: unchanged when the key was present,
the key appended when it was not. -/
theorem dictAdd_keys (l : List (ℤ × ℚ)) (k : ℤ) (v : ℚ) :
    (dictAdd l k v).map Prod.fst = insertNew (l.map Prod.fst) k := by
  induction l with
  | nil => simp [dictAdd, insertNew]
  | cons p l ih =>
    by_cases h : p.1 = k
    · simp only [dictAdd, if_pos h]
      simp [insertNew, h]
    · simp only [dictAdd, if_neg h]
      simp only [List.map_cons, ih, insertNew]
      by_cases hk : k ∈ l.map Prod.fst
      · simp [hk, Ne.symm h]
      · simp [hk, Ne.symm h]

/-! ### Shape analysis of one aggregation step -/

/-- Case analysis of `summaryStep` over the shapes of one transaction: the
step either raises for every state, adds the amount to the expenses total, or
adds a bucket increment and the conditional newly-opened contribution. -/
theorem summaryStep_cases (tx : Transaction) :
    ((tx.amount = none ∨ (∃ n, tx.installment = some n ∧ n ≠ 0 ∧ tx.installment_count = none)) ∧
      ∀ s, summaryStep s tx = none) ∨
    (∃ a, tx.amount = some a ∧ (tx.installment = none ∨ tx.installment = some 0) ∧
      derivedKey tx = none ∧
      ∀ s, summaryStep s tx = some { s with cheltuieli := s.cheltuieli + a }) ∨
    (∃ n m a, tx.installment = some n ∧ n ≠ 0 ∧ tx.installment_count = some m ∧
      tx.amount = some a ∧ derivedKey tx = some (m - n) ∧
      ∀ s, summaryStep s tx = some { s with
        rate_buckets := dictAdd s.rate_buckets (m - n) a,
        rate_noi := s.rate_noi + (if n = 1 then tx.total_transaction.getD 0 else 0) }) := by
  rcases hinst : tx.installment with _ | n
  · rcases hamt : tx.amount with _ | a
    · exact Or.inl ⟨Or.inl rfl, fun s => by simp [summaryStep, hinst, hamt]⟩
    · refine Or.inr (Or.inl ⟨a, rfl, Or.inl rfl, ?_, fun s => by simp [summaryStep, hinst, hamt]⟩)
      rcases hc : tx.installment_count with _ | m <;> simp [derivedKey, hinst, hc]
  · by_cases hn : n = 0
    · subst hn
      rcases hamt : tx.amount with _ | a
      · exact Or.inl ⟨Or.inl rfl, fun s => by simp [summaryStep, hinst, hamt]⟩
      · refine Or.inr (Or.inl ⟨a, rfl, Or.inr rfl, ?_, fun s => by simp [summaryStep, hinst, hamt]⟩)
        rcases hc : tx.installment_count with _ | m <;> simp [derivedKey, hinst, hc]
    · rcases hc : tx.installment_count with _ | m
      · refine Or.inl ⟨Or.inr ⟨n, rfl, hn, rfl⟩, fun s => ?_⟩
        simp [summaryStep, hinst, hc, hn]
      · rcases hamt : tx.amount with _ | a
        · exact Or.inl ⟨Or.inl rfl, fun s => by simp [summaryStep, hinst, hc, hamt, hn]⟩
        · refine Or.inr (Or.inr ⟨n, m, a, rfl, hn, rfl, rfl, ?_, fun s => ?_⟩)
          · simp [derivedKey, hinst, hc, hn]
          · simp [summaryStep, hinst, hc, hamt, hn]

/-! ### Claim C7 — order-independence of the aggregation -/

/-- Summary-state agreement is reflexive. -/
theorem summaryEquiv_refl (s : SummaryState) : summaryEquiv s s :=
  ⟨fun _ => rfl, rfl, rfl⟩

/-- Summary-state agreement is transitive. -/
theorem summaryEquiv_trans {s t u : SummaryState}
    (h1 : summaryEquiv s t) (h2 : summaryEquiv t u) : summaryEquiv s u :=
  ⟨fun k => (h1.1 k).trans (h2.1 k), h1.2.1.trans h2.2.1, h1.2.2.trans h2.2.2⟩

/-- Agreement of lifted results is transitive. -/
theorem optSummaryEquiv_trans {o1 o2 o3 : Option SummaryState}
    (h1 : optSummaryEquiv o1 o2) (h2 : optSummaryEquiv o2 o3) : optSummaryEquiv o1 o3 := by
  cases o1 <;> cases o2 <;> cases o3 <;> simp only [optSummaryEquiv] at * <;>
    first
    | trivial
    | exact summaryEquiv_trans h1 h2

/-- One aggregation step sends agreeing states to agreeing results. -/
theorem summaryStep_congr {s t : SummaryState} (h : summaryEquiv s t) (tx : Transaction) :
    optSummaryEquiv (summaryStep s tx) (summaryStep t tx) := by
  rcases summaryStep_cases tx with ⟨_, hstep⟩ | ⟨a, _, _, _, hstep⟩ |
    ⟨n, m, a, _, _, _, _, _, hstep⟩
  · rw [hstep s, hstep t]
    trivial
  · rw [hstep s, hstep t]
    exact ⟨fun k => h.1 k, by rw [h.2.1], h.2.2⟩
  · rw [hstep s, hstep t]
    refine ⟨fun j => ?_, h.2.1, by rw [h.2.2]⟩
    rw [dictGet_dictAdd, dictGet_dictAdd, h.1 j, h.1 (m - n)]

/-- The aggregation loop sends agreeing states to agreeing results. -/
theorem computeSummaryFrom_congr {s t : SummaryState} (h : summaryEquiv s t)
    (txs : List Transaction) :
    optSummaryEquiv (computeSummaryFrom s txs) (computeSummaryFrom t txs) := by
  induction txs generalizing s t with
  | nil => exact h
  | cons tx txs ih =>
    have hstep := summaryStep_congr h tx
    simp only [computeSummaryFrom]
    cases hs : summaryStep s tx with
    | none =>
      cases ht : summaryStep t tx with
      | none => trivial
      | some t' =>
        rw [hs, ht] at hstep
        exact absurd hstep (by simp [optSummaryEquiv])
    | some s' =>
      cases ht : summaryStep t tx with
      | none =>
        rw [hs, ht] at hstep
        exact absurd hstep (by simp [optSummaryEquiv])
      | some t' =>
        rw [hs, ht] at hstep
        exact ih hstep

/-- Two aggregation steps over distinct transactions commute up to
summary agreement: the expense, bucket and newly-opened contributions are
sums and pointwise dictionary increments, which are commutative. -/
theorem summaryStep_comm (x y : Transaction) (s : SummaryState) :
    optSummaryEquiv
      (contStep (summaryStep s y) x)
      (contStep (summaryStep s x) y) := by
  rcases summaryStep_cases x with ⟨_, hx⟩ | ⟨a, _, _, _, hx⟩ | ⟨n, m, a, _, _, _, _, _, hx⟩ <;>
    rcases summaryStep_cases y with ⟨_, hy⟩ | ⟨b, _, _, _, hy⟩ | ⟨p, q, b, _, _, _, _, _, hy⟩ <;>
      simp only [contStep, hx, hy]
  · trivial
  · trivial
  · trivial
  · trivial
  · exact ⟨fun k => rfl, by ring, rfl⟩
  · exact ⟨fun k => rfl, rfl, rfl⟩
  · trivial
  · exact ⟨fun k => rfl, rfl, rfl⟩
  · refine ⟨fun j => ?_, rfl, by ring⟩
    simp only [dictGet_dictAdd]
    by_cases h1 : j = m - n <;> by_cases h2 : j = q - p
    · subst h1
      simp [h2]
      ring
    · subst h1
      simp [h2]
    · subst h2
      simp [h1]
    · simp [h1, h2]

/-- Two iterations of the aggregation loop, written as one composed
possibly-raising step. -/
theorem computeSummaryFrom_two (s : SummaryState) (x y : Transaction)
    (l : List Transaction) :
    computeSummaryFrom s (y :: x :: l) =
      contFrom (contStep (summaryStep s y) x) l := by
  simp only [computeSummaryFrom, contFrom, contStep]
  cases summaryStep s y with
  | none => rfl
  | some s1 =>
    cases summaryStep s1 x with
    | none => rfl
    | some s2 => rfl

/-- Two composed aggregation steps send agreeing states to agreeing
results. -/
theorem summaryStep2_congr {s t : SummaryState} (h : summaryEquiv s t)
    (x y : Transaction) :
    optSummaryEquiv
      (contStep (summaryStep s x) y)
      (contStep (summaryStep t x) y) := by
  have h1 := summaryStep_congr h x
  simp only [contStep]
  cases hs : summaryStep s x with
  | none =>
    cases ht : summaryStep t x with
    | none => trivial
    | some t1 =>
      rw [hs, ht] at h1
      exact absurd h1 (by simp [optSummaryEquiv])
  | some s1 =>
    cases ht : summaryStep t x with
    | none =>
      rw [hs, ht] at h1
      exact absurd h1 (by simp [optSummaryEquiv])
    | some t1 =>
      rw [hs, ht] at h1
      exact summaryStep_congr h1 y

/-- The aggregation loop, continued from an agreeing pair of possibly-raised
states, produces agreeing results. -/
theorem computeSummaryFrom_optCongr {o1 o2 : Option SummaryState}
    (h : optSummaryEquiv o1 o2) (l : List Transaction) :
    optSummaryEquiv (contFrom o1 l) (contFrom o2 l) := by
  simp only [contFrom]
  cases o1 with
  | none =>
    cases o2 with
    | none => trivial
    | some t => exact absurd h (by simp [optSummaryEquiv])
  | some s =>
    cases o2 with
    | none => exact absurd h (by simp [optSummaryEquiv])
    | some t => exact computeSummaryFrom_congr h l

/-- The aggregation loop is invariant, up to summary agreement, under
permutation of the transaction list. -/
theorem computeSummaryFrom_perm {txs1 txs2 : List Transaction} (hp : txs1.Perm txs2) :
    ∀ s t, summaryEquiv s t →
      optSummaryEquiv (computeSummaryFrom s txs1) (computeSummaryFrom t txs2) := by
  induction hp with
  | nil => exact fun s t h => h
  | cons tx _ ih =>
    intro s t h
    have hstep := summaryStep_congr h tx
    simp only [computeSummaryFrom]
    cases hs : summaryStep s tx with
    | none =>
      cases ht : summaryStep t tx with
      | none => trivial
      | some t' =>
        rw [hs, ht] at hstep
        exact absurd hstep (by simp [optSummaryEquiv])
    | some s' =>
      cases ht : summaryStep t tx with
      | none =>
        rw [hs, ht] at hstep
        exact absurd hstep (by simp [optSummaryEquiv])
      | some t' =>
        rw [hs, ht] at hstep
        exact ih s' t' hstep
  | swap x y l =>
    intro s t h
    rw [computeSummaryFrom_two s x y l, computeSummaryFrom_two t y x l]
    exact computeSummaryFrom_optCongr
      (optSummaryEquiv_trans (summaryStep_comm x y s) (summaryStep2_congr h x y)) l
  | trans _ _ ih1 ih2 =>
    intro s t h
    exact optSummaryEquiv_trans (ih1 s s (summaryEquiv_refl s)) (ih2 s t h)

/-- Claim C7: aggregation is order-independent — for every permutation of the
transaction list, `compute_summary` produces the same bucket map, the same
non-installment total and the same newly-opened total (and raises on one
order exactly when it raises on the other). -/
theorem compute_summary_perm (txs1 txs2 : List Transaction) (hp : txs1.Perm txs2) :
    optSummaryEquiv (compute_summary txs1) (compute_summary txs2) :=
  computeSummaryFrom_perm hp _ _ (summaryEquiv_refl _)

/-- Witness for claim C7's theorem: the two scenario installment transactions
swapped. -/
theorem compute_summary_perm_witness :
    optSummaryEquiv (compute_summary [scenTx1, scenTx2]) (compute_summary [scenTx2, scenTx1]) :=
  compute_summary_perm [scenTx1, scenTx2] [scenTx2, scenTx1] (List.Perm.swap scenTx2 scenTx1 [])

/-! ### Claim C1 — the installment aggregator -/

/-- The aggregation loop started at any state computes, for well-formed
transactions, the claim's three quantities on top of the start state. -/
theorem computeSummaryFrom_wf (txs : List Transaction) :
    ∀ s : SummaryState, (∀ tx ∈ txs, txWF tx = true) →
      ∃ r, computeSummaryFrom s txs = some r ∧
        (∀ k, dictGet r.rate_buckets k = dictGet s.rate_buckets k + bucketTotal txs k) ∧
        r.cheltuieli = s.cheltuieli + nonInstallmentTotal txs ∧
        r.rate_noi = s.rate_noi + newlyOpenedTotal txs := by
  induction txs with
  | nil =>
    intro s _
    exact ⟨s, rfl, fun k => by simp [bucketTotal], by simp [nonInstallmentTotal],
      by simp [newlyOpenedTotal]⟩
  | cons tx txs ih =>
    intro s hwf
    have htx := hwf tx (by simp)
    have hamt : ∃ a, tx.amount = some a := by
      rcases hA : tx.amount with _ | a
      · rw [txWF, hA] at htx
        simp at htx
      · exact ⟨a, rfl⟩
    obtain ⟨a, ha⟩ := hamt
    rcases hI : tx.installment with _ | n
    · have hC : tx.installment_count = none := by
        rcases hC0 : tx.installment_count with _ | m
        · rfl
        · rw [txWF, hI, hC0] at htx
          simp at htx
      have hstep : summaryStep s tx = some { s with cheltuieli := s.cheltuieli + a } := by
        simp [summaryStep, hI, ha]
      obtain ⟨r, hr, hbk, hch, hni⟩ :=
        ih { s with cheltuieli := s.cheltuieli + a } (fun u hu => hwf u (by simp [hu]))
      refine ⟨r, ?_, ?_, ?_, ?_⟩
      · simp only [computeSummaryFrom, hstep]
        exact hr
      · intro k
        rw [hbk k]
        simp [bucketTotal, hI]
      · rw [hch]
        simp only [nonInstallmentTotal, List.map_cons, List.sum_cons, hI, ha]
        simp
        ring
      · rw [hni]
        simp [newlyOpenedTotal, hI]
    · have hnm : ∃ m, tx.installment_count = some m ∧ 1 ≤ n ∧ n ≤ m := by
        rcases hC0 : tx.installment_count with _ | m
        · rw [txWF, hI, hC0] at htx
          simp at htx
        · rw [txWF, hI, hC0] at htx
          simp at htx
          exact ⟨m, rfl, htx.2.1, htx.2.2⟩
      obtain ⟨m, hC, h1n, hnm'⟩ := hnm
      have hn0 : n ≠ 0 := by omega
      have hstep : summaryStep s tx = some { s with
          rate_buckets := dictAdd s.rate_buckets (m - n) a,
          rate_noi := s.rate_noi + (if n = 1 then tx.total_transaction.getD 0 else 0) } := by
        simp [summaryStep, hI, hC, ha, hn0]
      obtain ⟨r, hr, hbk, hch, hni⟩ := ih _ (fun u hu => hwf u (by simp [hu]))
      refine ⟨r, ?_, ?_, ?_, ?_⟩
      · simp only [computeSummaryFrom, hstep]
        exact hr
      · intro k
        rw [hbk k]
        simp only [bucketTotal, List.map_cons, List.sum_cons, hI, hC, ha]
        simp only [dictGet_dictAdd]
        by_cases hk : k = m - n
        · subst hk
          rw [if_pos rfl, if_pos rfl]
          simp only [Option.getD_some]
          ring
        · rw [if_neg hk, if_neg (by omega : ¬ m - n = k)]
          ring
      · rw [hch]
        simp [nonInstallmentTotal, hI]
      · rw [hni]
        simp only [newlyOpenedTotal, List.map_cons, List.sum_cons, hI]
        by_cases h1 : n = 1
        · simp only [h1, if_pos rfl, Option.some.injEq]
          simp
          ring
        · have : ¬ ((some n : Option ℤ) = some 1) := by simp [h1]
          rw [if_neg h1, if_neg this]
          simp

/-- Claim C1: for every list of data-model transactions (installment fields
both null or both present with the index between one and the count, amount
present), `compute_summary` returns without raising: the expenses total is
the sum of amounts over null-installment transactions, each bucket holds the
summed amounts of the transactions whose count-minus-index is its key, and
the newly-opened total is the sum of the coerced total amounts over the
index-one transactions; on the spec scenario's three transactions this gives
buckets eleven and ten at minus one hundred each, expenses minus thirty and
newly-opened minus twelve hundred. -/
theorem compute_summary_claim :
    (∀ txs, (∀ tx ∈ txs, txWF tx = true) →
      ∃ r, compute_summary txs = some r ∧
        (∀ k, dictGet r.rate_buckets k = bucketTotal txs k) ∧
        r.cheltuieli = nonInstallmentTotal txs ∧
        r.rate_noi = newlyOpenedTotal txs) ∧
    (∃ r, compute_summary scenTxs = some r ∧
      dictGet r.rate_buckets 11 = -100 ∧ dictGet r.rate_buckets 10 = -100 ∧
      (∀ k, k ≠ 11 → k ≠ 10 → dictGet r.rate_buckets k = 0) ∧
      r.cheltuieli = -30 ∧ r.rate_noi = -1200) := by
  constructor
  · intro txs h
    obtain ⟨r, hr, hbk, hch, hni⟩ := computeSummaryFrom_wf txs _ h
    exact ⟨r, hr, fun k => by simpa [dictGet] using hbk k, by simpa using hch,
      by simpa using hni⟩
  · have hrun : compute_summary scenTxs = some
        { rate_buckets := [(11, -100), (10, -100)], cheltuieli := -30, rate_noi := -1200 } := by
      simp [compute_summary, computeSummaryFrom, summaryStep, scenTxs, scenTx1, scenTx2,
        scenTx3, dictAdd]
    refine ⟨_, hrun, by norm_num [dictGet], by norm_num [dictGet], ?_, rfl, rfl⟩
    intro k h11 h10
    simp [dictGet, Ne.symm h11, Ne.symm h10]

/-- Witness for claim C1's theorem at the spec scenario. -/
theorem compute_summary_claim_witness :
    ∃ r, compute_summary scenTxs = some r ∧
      (∀ k, dictGet r.rate_buckets k = bucketTotal scenTxs k) ∧
      r.cheltuieli = nonInstallmentTotal scenTxs ∧
      r.rate_noi = newlyOpenedTotal scenTxs :=
  compute_summary_claim.1 scenTxs (by decide)

/-! ### Claim C8 — order of the rendered summary rows -/

/-- One successful aggregation step extends the bucket-key sequence by the
transaction's derived key exactly when that key is new. -/
theorem summaryStep_keys {s s' : SummaryState} {tx : Transaction}
    (h : summaryStep s tx = some s') :
    s'.rate_buckets.map Prod.fst =
      match derivedKey tx with
      | some k => insertNew (s.rate_buckets.map Prod.fst) k
      | none => s.rate_buckets.map Prod.fst := by
  rcases summaryStep_cases tx with ⟨_, hstep⟩ | ⟨a, _, _, hdk, hstep⟩ |
    ⟨n, m, a, _, _, _, _, hdk, hstep⟩
  · rw [hstep s] at h
    cases h
  · rw [hstep s] at h
    cases h
    rw [hdk]
  · rw [hstep s] at h
    cases h
    rw [hdk]
    exact dictAdd_keys s.rate_buckets (m - n) a

/-- The aggregation loop accumulates bucket keys in first-occurrence order of
the derived keys, on top of the start state's keys. -/
theorem computeSummaryFrom_keys (txs : List Transaction) :
    ∀ s r, computeSummaryFrom s txs = some r →
      r.rate_buckets.map Prod.fst =
        txs.foldl
          (fun ks tx =>
            match derivedKey tx with
            | some k => insertNew ks k
            | none => ks)
          (s.rate_buckets.map Prod.fst) := by
  induction txs with
  | nil =>
    intro s r h
    cases h
    rfl
  | cons tx txs ih =>
    intro s r h
    simp only [computeSummaryFrom] at h
    cases hs : summaryStep s tx with
    | none =>
      rw [hs] at h
      cases h
    | some s1 =>
      rw [hs] at h
      rw [List.foldl_cons, ← summaryStep_keys hs]
      exact ih s1 r h

/-- Claim C8 counterexample: the spec scenario's two installment rows produce
summary rows keyed eleven then ten — dictionary insertion order, which is not
ascending — so the row sequence handed to the summary writer is not sorted by
months remaining. -/
theorem summary_rows_sorted_counterexample :
    ¬ (∀ txs rows, summaryRows txs = some rows → ascSorted (rows.map Prod.fst) = true) := by
  intro h
  have h1 : summaryRows [scenTx1, scenTx2] =
      some [((11 : ℤ), (-100 : ℚ)), (10, -100)] := by
    simp [summaryRows, compute_summary, computeSummaryFrom, summaryStep, scenTx1, scenTx2,
      dictAdd]
  have h2 := h _ _ h1
  simp [ascSorted] at h2

/-- Claim C8 as amended: the summary rows handed to the renderer are the
buckets in dictionary insertion order — the keys appear in order of first
occurrence of each transaction's months-remaining key, not sorted
ascending. -/
theorem summary_rows_insertion_order (txs : List Transaction)
    (rows : List (ℤ × ℚ)) (h : summaryRows txs = some rows) :
    rows.map Prod.fst = firstOccKeys txs := by
  simp only [summaryRows, compute_summary] at h
  cases hc : computeSummaryFrom { rate_buckets := [], cheltuieli := 0, rate_noi := 0 } txs with
  | none => rw [hc] at h; cases h
  | some r =>
    rw [hc] at h
    have hr : rows = r.rate_buckets := by simpa using h.symm
    rw [hr, computeSummaryFrom_keys txs _ r hc]
    rfl

/-- Witness for the amended claim C8 theorem on the scenario rows. -/
theorem summary_rows_insertion_order_witness :
    ([((11 : ℤ), (-100 : ℚ)), (10, -100)]).map Prod.fst = firstOccKeys [scenTx1, scenTx2] :=
  summary_rows_insertion_order [scenTx1, scenTx2] [((11 : ℤ), (-100 : ℚ)), (10, -100)]
    (by simp [summaryRows, compute_summary, computeSummaryFrom, summaryStep, scenTx1, scenTx2,
      dictAdd])

/-! ### Parser-level lemmas -/

/-- A capture of the date pattern is itself an exact date match. -/
theorem matchDate_self {cs hd r : List Char} (h : matchDate cs = some (hd, r)) :
    matchDate hd = some (hd, []) := by
  unfold matchDate at h
  split at h
  · rename_i c1 c2 c3 c4 c5 c6 c7 c8 c9 c10 rest
    split at h
    · rename_i hg
      cases h
      simp [matchDate, hg]
    · cases h
  · cases h

/-- Every successful block match carries a header-date capture produced by
the date sub-pattern. -/
theorem matchBlockAt_header {cs : List Char} {bm : BlockMatch}
    (h : matchBlockAt cs = some bm) :
    ∃ hd r, matchDate cs = some (hd, r) ∧ bm.header_date = String.mk hd := by
  unfold matchBlockAt at h
  split at h
  · cases h
  · next hdc r heq =>
    cases hb : matchBlockBody r with
    | none =>
      rw [hb] at h
      cases h
    | some b =>
      rw [hb] at h
      simp only [Option.map] at h
      cases h
      exact ⟨hdc, r, heq, rfl⟩

/-- Every block match the scan produces is a `matchBlockAt` success at some
position. -/
theorem cecFindIter_mem :
    ∀ (fuel : Nat) (cs : List Char) (bm : BlockMatch), bm ∈ cecFindIter fuel cs →
      ∃ cs', matchBlockAt cs' = some bm := by
  intro fuel
  induction fuel with
  | zero =>
    intro cs bm h
    simp [cecFindIter] at h
  | succ fuel ih =>
    intro cs bm h
    simp only [cecFindIter] at h
    cases hm : matchBlockAt cs with
    | some bm0 =>
      rw [hm] at h
      rcases List.mem_cons.mp h with rfl | h'
      · exact ⟨cs, hm⟩
      · exact ih _ _ h'
    | none =>
      rw [hm] at h
      cases cs with
      | nil => simp at h
      | cons c cs' => exact ih _ _ h

/-- Every element of a successful `optionMapM` run is the image of some list
element. -/
theorem optionMapM_mem {f : α → Option β} :
    ∀ {l : List α} {l' : List β}, optionMapM f l = some l' →
      ∀ b ∈ l', ∃ a ∈ l, f a = some b := by
  intro l
  induction l with
  | nil =>
    intro l' h b hb
    cases h
    simp at hb
  | cons a as ih =>
    intro l' h b hb
    simp only [optionMapM] at h
    cases hfa : f a with
    | none =>
      rw [hfa] at h
      cases h
    | some b0 =>
      rw [hfa] at h
      cases hrec : optionMapM f as with
      | none =>
        rw [hrec] at h
        cases h
      | some bs =>
        rw [hrec] at h
        cases h
        rcases List.mem_cons.mp hb with rfl | hb'
        · exact ⟨a, by simp, hfa⟩
        · obtain ⟨a', ha', hfa'⟩ := ih hrec b hb'
          exact ⟨a', by simp [ha'], hfa'⟩

/-- The fields a built transaction receives from its pieces. -/
theorem finishTx_fields {m : BlockMatch} {info : String} {amount : ℚ}
    {inst instCount : Option ℤ} {rataStr : String} {tx : Transaction}
    (h : finishTx m info amount inst instCount rataStr = some tx) :
    tx.installment = inst ∧ tx.installment_count = instCount ∧
    tx.header_date = some m.header_date ∧
    tx.amount = some (if m.sign = some "+" then amount else -amount) ∧
    tx.store = some (payeeOf info) := by
  unfold finishTx at h
  cases ht : totalOf info with
  | none =>
    rw [ht] at h
    cases h
  | some tot =>
    rw [ht] at h
    simp only [Option.map] at h
    cases h
    exact ⟨rfl, rfl, rfl, rfl, rfl⟩

/-- The installment fields of every built transaction: set together from the
installment-phrase match, both null when it is absent and both nonnegative
integers when present; the header date is the captured header group. -/
theorem buildTransaction_fields {m : BlockMatch} {tx : Transaction}
    (h : buildTransaction m = some tx) :
    tx.header_date = some m.header_date ∧
    ((tx.installment = none ∧ tx.installment_count = none) ∨
      (∃ n mm : ℕ, tx.installment = some (n : ℤ) ∧ tx.installment_count = some (mm : ℤ))) := by
  unfold buildTransaction at h
  split at h
  · cases h
  · split at h
    · obtain ⟨h1, h2, h3, _, _⟩ := finishTx_fields h
      exact ⟨h3, Or.inl ⟨h1, h2⟩⟩
    · next s1 s2 heq =>
      split at h
      · next n mm hi1 hi2 =>
        obtain ⟨h1, h2, h3, _, _⟩ := finishTx_fields h
        exact ⟨h3, Or.inr ⟨n, mm, h1, h2⟩⟩
      · cases h

/-! ### Claim C10 — the header date of every parsed transaction -/

/-- Claim C10: every transaction `parse_text` produces carries a non-null,
date-shaped `header_date` — the block pattern's header-date group is
mandatory even though the data model declares the field nullable. -/
theorem cecParseText_header_claim (text : String) (txs : List Transaction)
    (h : cecParseText text = some txs) :
    ∀ tx ∈ txs, ∃ s, tx.header_date = some s ∧ dateShaped s = true := by
  intro tx htx
  obtain ⟨bm, hbm, hbuild⟩ := optionMapM_mem h tx htx
  obtain ⟨cs', hmatch⟩ := cecFindIter_mem _ _ _ hbm
  obtain ⟨hd, r, hdate, hhd⟩ := matchBlockAt_header hmatch
  have hds : dateShaped (String.mk hd) = true := by
    have hself := matchDate_self hdate
    simp [dateShaped, hself]
  exact ⟨String.mk hd, by rw [(buildTransaction_fields hbuild).1, hhd], hds⟩

/-- Witness for claim C10's theorem on a concrete block. -/
theorem cecParseText_header_claim_witness :
    ∃ s, ((((cecParseText plainBlockInput).getD []).headD default).header_date = some s) ∧
      dateShaped s = true :=
  cecParseText_header_claim plainBlockInput ((cecParseText plainBlockInput).getD []) rfl
    (((cecParseText plainBlockInput).getD []).headD default)
    (by
      have heq : (((cecParseText plainBlockInput).getD []).headD default) ::
          ([] : List Transaction) = (cecParseText plainBlockInput).getD [] := rfl
      exact heq ▸ List.Mem.head [])

/-! ### Claim C2 — the installment-field invariant of parsed transactions -/

/-- Claim C2 counterexample: a block whose details read installment zero of
two parses to a transaction whose installment index is zero, violating the
claimed lower bound of one — the digit group of the installment pattern does
not enforce it. -/
theorem cecParseText_installment_claim_counterexample :
    ¬ (∀ text txs, cecParseText text = some txs →
        ∀ tx ∈ txs, ∀ n : ℤ, tx.installment = some n → 1 ≤ n) := by
  intro h
  have hmem : (((cecParseText rataZeroInput).getD []).headD default) ∈
      ((cecParseText rataZeroInput).getD []) := by
    have heq : (((cecParseText rataZeroInput).getD []).headD default) ::
        ([] : List Transaction) = (cecParseText rataZeroInput).getD [] := rfl
    exact heq ▸ List.Mem.head []
  have hinst : (((cecParseText rataZeroInput).getD []).headD default).installment = some 0 := by
    decide
  have hle := h rataZeroInput ((cecParseText rataZeroInput).getD []) rfl
    (((cecParseText rataZeroInput).getD []).headD default) hmem 0 hinst
  omega

/-- Claim C2 as amended: the installment fields of every parsed transaction
are set together — both null when the block has no installment phrase, and
both present as parsed nonnegative integers when it has one; the bound of
one on the index is not enforced (and an index above the count is likewise
possible). -/
theorem cecParseText_installment_pairing (text : String) (txs : List Transaction)
    (h : cecParseText text = some txs) :
    ∀ tx ∈ txs,
      (tx.installment = none ∧ tx.installment_count = none) ∨
      (∃ n mm : ℕ, tx.installment = some (n : ℤ) ∧ tx.installment_count = some (mm : ℤ)) := by
  intro tx htx
  obtain ⟨bm, _, hbuild⟩ := optionMapM_mem h tx htx
  exact (buildTransaction_fields hbuild).2

/-- Witness for the amended claim C2 theorem on a concrete block. -/
theorem cecParseText_installment_pairing_witness :
    ((((cecParseText plainBlockInput2).getD []).headD default).installment = none ∧
      (((cecParseText plainBlockInput2).getD []).headD default).installment_count = none) ∨
    (∃ n mm : ℕ,
      (((cecParseText plainBlockInput2).getD []).headD default).installment = some (n : ℤ) ∧
      (((cecParseText plainBlockInput2).getD []).headD default).installment_count
        = some (mm : ℤ)) :=
  cecParseText_installment_pairing plainBlockInput2 ((cecParseText plainBlockInput2).getD [])
    rfl (((cecParseText plainBlockInput2).getD []).headD default)
    (by
      have heq : (((cecParseText plainBlockInput2).getD []).headD default) ::
          ([] : List Transaction) = (cecParseText plainBlockInput2).getD [] := rfl
      exact heq ▸ List.Mem.head [])

/-! ### Claim C4 — the Variant-B parsing scenario -/

/-- Claim C4 counterexample: the scenario's input block contains only one
date-shaped token, but the block pattern demands a header date and a
transaction date, so `parse_text` yields no transaction at all — in
particular none with the claimed fields. -/
theorem cecParseText_scenario_counterexample :
    cecParseText c4Input = some [] ∧
    ¬ (∃ txs tx, cecParseText c4Input = some txs ∧ tx ∈ txs ∧
        tx.installment = some 2 ∧ tx.installment_count = some 12) := by
  have h0 : cecParseText c4Input = some [] := by decide
  refine ⟨h0, ?_⟩
  rintro ⟨txs, tx, h1, h2, _⟩
  rw [h0] at h1
  cases h1
  simp at h2

/-- Claim C4 as amended: the scenario block parses to no transaction; with a
header-date line prepended and the date token repeated inside the details
line (as the merchant-name extraction requires), the block parses to exactly
one transaction with installment index two, count twelve, amount minus one
hundred fifty, and a store containing the merchant name. -/
theorem cecParseText_scenario_amended :
    cecParseText c4Input = some [] ∧
    ∃ txs tx, cecParseText c4FixedInput = some txs ∧ txs = [tx] ∧
      tx.installment = some 2 ∧ tx.installment_count = some 12 ∧
      tx.amount = some (-150 : ℚ) ∧
      ∃ st, tx.store = some st ∧ listContains st.data "SUPERMARKET".data = true := by
  refine ⟨by decide, ?_⟩
  have hfind : cecFindIter (c4FixedInput.data.length + 1) c4FixedInput.data = [c4Bm] := by
    decide
  have hna : normalize_amount c4Bm.amount = some ((15000 : ℚ) / 100) := by
    rw [normalize_amount_claim.1 c4Bm.amount (by decide) (by decide),
      show digitsToNat (c4Bm.amount.data.filter fun c => !(c == ',' || c == '.')) = 15000
        from by decide]
    norm_num
  have hrata : rataSearch (pyStrip c4Bm.info).data = some ("2", "12") := by decide
  have hi1 : pyInt? "2" = some 2 := by decide
  have hi2 : pyInt? "12" = some 12 := by decide
  have hbuild : buildTransaction c4Bm =
      finishTx c4Bm (pyStrip c4Bm.info) ((15000 : ℚ) / 100) (some 2) (some 12)
        (if (12 : ℕ) ≠ 0 then "Rata " ++ toString (2 : ℕ) ++ " din " ++ toString (12 : ℕ)
         else "") := by
    rw [buildTransaction, hna, hrata]
    simp only [hi1, hi2]
    norm_cast
  have htot : totalOf (pyStrip c4Bm.info) = some 0 := by
    rw [totalOf, show totalSearch (pyStrip c4Bm.info).data = none from by decide]
  obtain ⟨tx, htx⟩ : ∃ tx, buildTransaction c4Bm = some tx := by
    rw [hbuild, finishTx, htot]
    exact ⟨_, rfl⟩
  obtain ⟨hI, hC, _, hA, hS⟩ := finishTx_fields (hbuild.symm.trans htx)
  have hp : cecParseText c4FixedInput = some [tx] := by
    unfold cecParseText
    rw [hfind]
    simp only [optionMapM, htx]
  refine ⟨[tx], tx, hp, rfl, hI, hC, ?_, ?_⟩
  · rw [hA, if_neg (by decide)]
    norm_num
  · exact ⟨payeeOf (pyStrip c4Bm.info), hS, by decide⟩
